import Mathlib

/-!
Verification of the credit-default notebook pipeline
(`notebooks/plot_credit_default.ipynb`).

The notebook is a linear pipeline over a tabular dataset:
load (separate the label column), seeded shuffle of rows, deletion of the
`ID` column, feature derivation (rename `PAY_0` to `PAY_1`, append five
aggregate columns, drop the twelve source columns), a midpoint train/test
split, and a grid search over two hyperparameters.

The development models a data frame as an ordered list of column labels
together with a list of rows, and each pandas/numpy operation used by the
notebook as a function on that structure.  Entry values are real numbers
(the notebook coerces the table to a single numeric dtype via `np.array`).
-/

namespace CreditDefault

/-- A data frame: an ordered list of column labels and a list of rows, each
row an ordered list of real-valued entries. -/
structure Table where
  cols : List String
  rows : List (List ℝ)

/-- Well-formedness: every row has exactly one entry per column. -/
def Table.WF (T : Table) : Prop := ∀ r ∈ T.rows, r.length = T.cols.length

/-- Label-based lookup in a row paired with its column labels: the entry of
the first column whose label matches, `0` when no column matches (mirrors
selection by label). -/
def lookupVal (ps : List (String × ℝ)) (c : String) : ℝ :=
  ((ps.find? (fun p => p.1 == c)).map Prod.snd).getD 0

/-- `row[c]`: the entry of row `r` under the column labelled `c`. -/
def rowVal (cols : List String) (r : List ℝ) (c : String) : ℝ :=
  lookupVal (cols.zip r) c

/-- `data.drop(c, axis=1)` / `del data[c]`: remove every column labelled
`c`, and the corresponding entry of every row. -/
def dropCol (T : Table) (c : String) : Table where
  cols := T.cols.filter (fun s => !(s == c))
  rows := T.rows.map (fun r => ((T.cols.zip r).filter (fun p => !(p.1 == c))).map Prod.snd)

/-- `data.rename(columns={old: new})`: relabel every matching column; the
entries are untouched. -/
def renameCol (T : Table) (old new : String) : Table where
  cols := T.cols.map (fun s => if s == old then new else s)
  rows := T.rows

/-- `data[c] = data[sub].apply(agg, axis=1)`: for each row, apply `agg` to
the entries under the labels in `sub`; overwrite column `c` when it is
already present, otherwise append it as the rightmost column. -/
noncomputable def setColApply (T : Table) (c : String) (sub : List String)
    (agg : List ℝ → ℝ) : Table :=
  if c ∈ T.cols then
    { cols := T.cols
      rows := T.rows.map (fun r =>
        r.set (T.cols.indexOf c) (agg (sub.map (rowVal T.cols r)))) }
  else
    { cols := T.cols ++ [c]
      rows := T.rows.map (fun r => r ++ [agg (sub.map (rowVal T.cols r))]) }

/-- `np.mean`: the sum of the values divided by how many there are. -/
noncomputable def npMean (l : List ℝ) : ℝ := l.sum / l.length

/-- `np.var` with the default `ddof=0`: the mean squared deviation from the
mean (population variance). -/
noncomputable def npVar (l : List ℝ) : ℝ :=
  ((l.map (fun x => (x - npMean l) ^ 2)).sum) / l.length

/-- `np.std` with the default `ddof=0`: the square root of the population
variance. -/
noncomputable def npStd (l : List ℝ) : ℝ := Real.sqrt (npVar l)

/-- The sum of squared deviations from the mean (so that
`npVar l = sumSqDev l / l.length`). -/
noncomputable def sumSqDev (l : List ℝ) : ℝ :=
  (l.map (fun x => (x - npMean l) ^ 2)).sum

/-- The four oldest payment-status columns. -/
def old_PAY : List String := ["PAY_3", "PAY_4", "PAY_5", "PAY_6"]

/-- The four oldest bill-amount columns. -/
def old_BILL_AMT : List String := ["BILL_AMT3", "BILL_AMT4", "BILL_AMT5", "BILL_AMT6"]

/-- The four oldest payment-amount columns. -/
def old_PAY_AMT : List String := ["PAY_AMT3", "PAY_AMT4", "PAY_AMT5", "PAY_AMT6"]

/-- The five derived aggregate columns, in the order they are appended. -/
def derivedCols : List String :=
  ["PAY_old_mean", "BILL_AMT_old_mean", "BILL_AMT_old_std",
   "PAY_AMT_old_mean", "PAY_AMT_old_std"]

/-- The twelve source columns, in the order they are passed to `drop`. -/
def droppedCols : List String := old_PAY_AMT ++ old_BILL_AMT ++ old_PAY

/-- The feature-engineering cell: rename `PAY_0` to `PAY_1`, append the five
aggregate columns one at a time, then drop the twelve source columns. -/
noncomputable def featureDerive (T : Table) : Table :=
  let t1 := renameCol T "PAY_0" "PAY_1"
  let t2 := setColApply t1 "PAY_old_mean" old_PAY npMean
  let t3 := setColApply t2 "BILL_AMT_old_mean" old_BILL_AMT npMean
  let t4 := setColApply t3 "BILL_AMT_old_std" old_BILL_AMT npStd
  let t5 := setColApply t4 "PAY_AMT_old_mean" old_PAY_AMT npMean
  let t6 := setColApply t5 "PAY_AMT_old_std" old_PAY_AMT npStd
  droppedCols.foldl dropCol t6

/-- The `i`-th row of a table (the empty row out of range). -/
def Table.row (T : Table) (i : Nat) : List ℝ := T.rows.getD i []

/-- The label-list effect of `dropCol`. -/
def colsDrop (cs : List String) (c : String) : List String :=
  cs.filter (fun s => !(s == c))

/-- The label-list effect of `renameCol T "PAY_0" "PAY_1"`. -/
def colsRename (cs : List String) : List String :=
  cs.map (fun s => if s == "PAY_0" then "PAY_1" else s)

/-- The label-list effect of `setColApply`. -/
def colsSet (cs : List String) (c : String) : List String :=
  if c ∈ cs then cs else cs ++ [c]

/-- The label-list effect of the whole feature-derivation cell. -/
def colsAfterDerive (cs : List String) : List String :=
  droppedCols.foldl colsDrop
    (colsSet (colsSet (colsSet (colsSet (colsSet (colsRename cs)
      "PAY_old_mean") "BILL_AMT_old_mean") "BILL_AMT_old_std")
      "PAY_AMT_old_mean") "PAY_AMT_old_std")

/-- The train/test split cell: `n_samples_train = int(n_samples / 2)` rows
go to the training partition, the remaining rows to the test partition, and
the label array is sliced at the same point.  Returned as
(X train, X test, y train, y test). -/
def splitData (data : List (List ℝ)) (y : List ℝ) :
    List (List ℝ) × List (List ℝ) × List ℝ × List ℝ :=
  let nTrain := data.length / 2
  (data.take nTrain, data.drop nTrain, y.take nTrain, y.drop nTrain)

/-- A 64-bit linear-congruential step.  Modelled from the spec: the
notebook's pseudo-random generator (`np.random.RandomState(1)`) is library
code outside this repository; the spec requires only a deterministic
seeded generator, which this stands in for. -/
def lcg (s : Nat) : Nat := (6364136223846793005 * s + 1442695040888963407) % 2 ^ 64

/-- Draw the whole pool in a pseudo-random order: at each step the state
selects one remaining element, which is removed from the pool.  The fuel
argument bounds the recursion by the pool size. -/
def drawAux : Nat → Nat → List Nat → List Nat
  | 0, _, _ => []
  | k + 1, s, pool =>
    if hp : pool = [] then []
    else
      (pool.get ⟨s % pool.length, Nat.mod_lt _ (List.length_pos.mpr hp)⟩) ::
        drawAux k (lcg s)
          (pool.erase (pool.get ⟨s % pool.length, Nat.mod_lt _ (List.length_pos.mpr hp)⟩))

/-- Modelled from the spec: a seeded random permutation of `0, …, n-1`, as
produced by the shuffler's pseudo-random generator from its seed. -/
def permIndices (seed n : Nat) : List Nat := drawAux n (lcg seed) (List.range n)

/-- Reorder a list by a list of indices (`l[p]` in numpy fancy indexing). -/
def reindex (d : α) (l : List α) (p : List Nat) : List α :=
  p.map (fun i => l.getD i d)

/-- `sklearn.utils.shuffle(np.array(X), y, random_state=rng)`: one
permutation of `0, …, n-1` is generated from the seed and applied to the
rows of `X` and to `y` alike. -/
def shuffleXy (X : List (List ℝ)) (y : List ℝ) (seed : Nat) :
    List (List ℝ) × List ℝ :=
  (reindex [] X (permIndices seed X.length), reindex 0 y (permIndices seed X.length))

/-- The name of the label column. -/
def creditLabel : String := "default payment next month"

/-- Cell 4: the feature table, the raw table minus the label column. -/
def loadX (raw : Table) : Table := dropCol raw creditLabel

/-- Cell 4: the label array, the entries of the label column. -/
def loadY (raw : Table) : List ℝ :=
  raw.rows.map (fun r => rowVal raw.cols r creditLabel)

/-- Cells 4–6: load, shuffle with the seed, rebuild the data frame with the
same column labels, and delete the `ID` column — the feature table part. -/
def shuffledTable (raw : Table) (seed : Nat) : Table :=
  dropCol
    { cols := (loadX raw).cols
      rows := (shuffleXy (loadX raw).rows (loadY raw) seed).1 } "ID"

/-- Cells 4–6: the shuffled label array. -/
def shuffledY (raw : Table) (seed : Nat) : List ℝ :=
  (shuffleXy (loadX raw).rows (loadY raw) seed).2

/-- Cells 4–8: the feature table after shuffling, `ID` deletion and feature
derivation. -/
noncomputable def derivedTable (raw : Table) (seed : Nat) : Table :=
  featureDerive (shuffledTable raw seed)

/-- `range(3, 8, 1)`: the candidate values for `max_depth`. -/
def gridDepths : List Nat := [3, 4, 5, 6, 7]

/-- `np.linspace(0.1, 1., 5)`: the candidate values for `max_features`
(exact rationals). -/
def gridFeatures : List ℚ := [1/10, 13/40, 11/20, 31/40, 1]

/-- The Cartesian product grid searched by `GridSearchCV`, in the order
`ParameterGrid` enumerates it (`max_depth` outer, `max_features` inner). -/
def gridCandidates : List (Nat × ℚ) :=
  gridDepths.flatMap (fun d => gridFeatures.map (fun f => (d, f)))

/-- One comparison step of the grid-search selection: keep the incumbent
unless the next candidate scores strictly higher (so the first candidate
with the maximal score wins, as `best_index_` is the first index of rank
1). -/
def selectStep (score : Nat × ℚ → ℚ) (best : Option (Nat × ℚ))
    (p : Nat × ℚ) : Option (Nat × ℚ) :=
  match best with
  | none => some p
  | some b => if score b < score p then some p else some b

/-- Modelled from the spec: `GridSearchCV` evaluates every candidate with a
cross-validated score and keeps a best-scoring one; the scoring itself is
library code outside this repository, so it is abstracted as an arbitrary
score function. -/
def selectBest (cands : List (Nat × ℚ)) (score : Nat × ℚ → ℚ) :
    Option (Nat × ℚ) :=
  cands.foldl (selectStep score) none

/-- The column layout of the credit-card spreadsheet read in cell 4, as
recorded by the notebook's own output (the printed feature list) together
with the columns the notebook removes or renames. -/
def creditColumns : List String :=
  ["ID", "LIMIT_BAL", "SEX", "EDUCATION", "MARRIAGE", "AGE",
   "PAY_0", "PAY_2", "PAY_3", "PAY_4", "PAY_5", "PAY_6",
   "BILL_AMT1", "BILL_AMT2", "BILL_AMT3", "BILL_AMT4", "BILL_AMT5", "BILL_AMT6",
   "PAY_AMT1", "PAY_AMT2", "PAY_AMT3", "PAY_AMT4", "PAY_AMT5", "PAY_AMT6",
   "default payment next month"]

/-- The feature list the notebook prints before the split. -/
def expectedFeatures : List String :=
  ["LIMIT_BAL", "SEX", "EDUCATION", "MARRIAGE", "AGE", "PAY_1", "PAY_2",
   "BILL_AMT1", "BILL_AMT2", "PAY_AMT1", "PAY_AMT2",
   "PAY_old_mean", "BILL_AMT_old_mean", "BILL_AMT_old_std",
   "PAY_AMT_old_mean", "PAY_AMT_old_std"]

/-- A small concrete feature table (as it stands before the derivation
cell) used to instantiate the universally quantified theorems. -/
def sampleTable : Table where
  cols := ["LIMIT_BAL", "AGE", "PAY_0", "PAY_2",
           "PAY_3", "PAY_4", "PAY_5", "PAY_6",
           "BILL_AMT1", "BILL_AMT3", "BILL_AMT4", "BILL_AMT5", "BILL_AMT6",
           "PAY_AMT3", "PAY_AMT4", "PAY_AMT5", "PAY_AMT6"]
  rows := [[200000, 35, 7, 1,
            1, 2, 3, 6,
            150, 10, 10, 30, 30,
            5, 5, 7, 7]]

/-- A small concrete raw table with the credit-card column layout used to
instantiate the pipeline theorems. -/
def sampleRaw : Table where
  cols := creditColumns
  rows := [[1, 20000, 2, 2, 1, 24,
            2, -1, -1, -1, -2, -2,
            3913, 3102, 689, 0, 0, 0,
            0, 689, 0, 0, 0, 0, 1]]

/-! ### Lemmas about label-based lookup on (label, entry) pair lists -/

theorem lookupVal_nil (c : String) : lookupVal [] c = 0 := rfl

theorem lookupVal_cons (p : String × ℝ) (l : List (String × ℝ)) (c : String) :
    lookupVal (p :: l) c = if p.1 = c then p.2 else lookupVal l c := by
  by_cases h : p.1 = c <;> simp [lookupVal, List.find?_cons, h]

/-- Appending a pair with a different label does not change a lookup. -/
theorem lookupVal_append_ne (l : List (String × ℝ)) (c c' : String) (v : ℝ)
    (h : c ≠ c') : lookupVal (l ++ [(c', v)]) c = lookupVal l c := by
  induction l with
  | nil => simp [lookupVal_cons, lookupVal_nil, Ne.symm h]
  | cons p l ih => simp [lookupVal_cons, ih]

/-- Appending a pair whose label occurs nowhere in the list makes its value
the result of looking that label up. -/
theorem lookupVal_append_eq (l : List (String × ℝ)) (c : String) (v : ℝ)
    (h : ∀ p ∈ l, p.1 ≠ c) : lookupVal (l ++ [(c, v)]) c = v := by
  induction l with
  | nil => simp [lookupVal_cons, lookupVal_nil]
  | cons p l ih =>
      have hp : p.1 ≠ c := h p (by simp)
      simp only [List.cons_append, lookupVal_cons, if_neg hp]
      exact ih fun q hq => h q (by simp [hq])

/-- Filtering out pairs, none of which carry the looked-up label, does not
change the lookup. -/
theorem lookupVal_filter (l : List (String × ℝ)) (q : String × ℝ → Bool)
    (c : String) (h : ∀ p : String × ℝ, p.1 = c → q p) :
    lookupVal (l.filter q) c = lookupVal l c := by
  induction l with
  | nil => rfl
  | cons p l ih =>
      by_cases hq : q p
      · rw [List.filter_cons_of_pos hq, lookupVal_cons, lookupVal_cons, ih]
      · have hp : p.1 ≠ c := fun hc => hq (h p hc)
        rw [List.filter_cons_of_neg hq, lookupVal_cons, if_neg hp, ih]

/-- Relabelling pairs with a map that neither creates nor destroys matches
of `c` does not change the lookup. -/
theorem lookupVal_map_name (l : List (String × ℝ)) (f : String → String)
    (c : String) (h : ∀ a : String, f a = c ↔ a = c) :
    lookupVal (l.map (Prod.map f id)) c = lookupVal l c := by
  induction l with
  | nil => rfl
  | cons p l ih =>
      by_cases hp : p.1 = c
      · have h1 : (Prod.map f id p).1 = c := (h p.1).mpr hp
        rw [List.map_cons, lookupVal_cons, lookupVal_cons, if_pos hp, if_pos h1]
        rfl
      · have h1 : (Prod.map f id p).1 ≠ c := fun hc => hp ((h p.1).mp hc)
        rw [List.map_cons, lookupVal_cons, lookupVal_cons, if_neg hp, if_neg h1, ih]

/-- Aligning a filtered label list with the matching filtered row recovers
the filtered pair list. -/
theorem filter_zip_eq (q : String → Bool) (cols : List String) :
    ∀ r : List ℝ, r.length = cols.length →
      (cols.filter q).zip (((cols.zip r).filter (fun p => q p.1)).map Prod.snd) =
        (cols.zip r).filter (fun p => q p.1) := by
  induction cols with
  | nil => intro r h; simp
  | cons a cols ih =>
      intro r h
      cases r with
      | nil => simp at h
      | cons b r =>
          have hlen : r.length = cols.length := by simpa using h
          by_cases hq : q a
          · simp [List.filter_cons, hq, ih r hlen]
          · simp [List.filter_cons, hq, ih r hlen]

/-- The filtered pair list has as many pairs as the filtered label list has
labels. -/
theorem length_filter_zip (q : String → Bool) (cols : List String) :
    ∀ r : List ℝ, r.length = cols.length →
      (((cols.zip r).filter (fun p => q p.1)).map Prod.snd).length =
        (cols.filter q).length := by
  induction cols with
  | nil => intro r h; simp
  | cons a cols ih =>
      intro r h
      cases r with
      | nil => simp at h
      | cons b r =>
          have hlen : r.length = cols.length := by simpa using h
          by_cases hq : q a
          · simp [List.filter_cons, hq, ih r hlen]
          · simp [List.filter_cons, hq, ih r hlen]

/-! ### Structural lemmas about the table operations -/

theorem getD_map_lt {α β : Type} (f : α → β) (l : List α) (dα : α) (dβ : β)
    (i : Nat) (hi : i < l.length) :
    (l.map f).getD i dβ = f (l.getD i dα) := by
  rw [List.getD_eq_getElem _ _ (by simpa using hi), List.getElem_map,
    ← List.getD_eq_getElem l dα hi]

theorem dropCol_cols (T : Table) (c : String) :
    (dropCol T c).cols = T.cols.filter (fun s => !(s == c)) := rfl

theorem dropCol_rows_length (T : Table) (c : String) :
    (dropCol T c).rows.length = T.rows.length := by simp [dropCol]

theorem dropCol_row (T : Table) (c : String) (i : Nat) (hi : i < T.rows.length) :
    (dropCol T c).row i =
      ((T.cols.zip (T.row i)).filter (fun p => !(p.1 == c))).map Prod.snd := by
  unfold Table.row dropCol
  exact getD_map_lt _ _ [] _ i hi

theorem renameCol_cols (T : Table) (o n : String) :
    (renameCol T o n).cols = T.cols.map (fun s => if s == o then n else s) := rfl

theorem renameCol_row (T : Table) (o n : String) (i : Nat) :
    (renameCol T o n).row i = T.row i := rfl

theorem renameCol_rows_length (T : Table) (o n : String) :
    (renameCol T o n).rows.length = T.rows.length := rfl

theorem setColApply_cols_of_not_mem (T : Table) (c : String) (sub : List String)
    (agg : List ℝ → ℝ) (h : c ∉ T.cols) :
    (setColApply T c sub agg).cols = T.cols ++ [c] := by
  simp [setColApply, h]

theorem setColApply_rows_of_not_mem (T : Table) (c : String) (sub : List String)
    (agg : List ℝ → ℝ) (h : c ∉ T.cols) :
    (setColApply T c sub agg).rows =
      T.rows.map (fun r => r ++ [agg (sub.map (rowVal T.cols r))]) := by
  simp [setColApply, h]

theorem setColApply_rows_length (T : Table) (c : String) (sub : List String)
    (agg : List ℝ → ℝ) :
    (setColApply T c sub agg).rows.length = T.rows.length := by
  by_cases h : c ∈ T.cols <;> simp [setColApply, h]

theorem setColApply_row_of_not_mem (T : Table) (c : String) (sub : List String)
    (agg : List ℝ → ℝ) (h : c ∉ T.cols) (i : Nat) (hi : i < T.rows.length) :
    (setColApply T c sub agg).row i =
      T.row i ++ [agg (sub.map (rowVal T.cols (T.row i)))] := by
  unfold Table.row
  rw [setColApply_rows_of_not_mem T c sub agg h]
  exact getD_map_lt _ _ [] _ i hi

theorem WF_dropCol (T : Table) (c : String) (h : T.WF) : (dropCol T c).WF := by
  intro r hr
  obtain ⟨r0, hr0, rfl⟩ := List.mem_map.mp hr
  exact length_filter_zip (fun s => !(s == c)) T.cols r0 (h r0 hr0)

theorem WF_renameCol (T : Table) (o n : String) (h : T.WF) : (renameCol T o n).WF := by
  intro r hr
  rw [renameCol_cols, List.length_map]
  exact h r hr

theorem WF_setColApply_of_not_mem (T : Table) (c : String) (sub : List String)
    (agg : List ℝ → ℝ) (hc : c ∉ T.cols) (h : T.WF) : (setColApply T c sub agg).WF := by
  intro r hr
  rw [setColApply_rows_of_not_mem T c sub agg hc] at hr
  obtain ⟨r0, hr0, rfl⟩ := List.mem_map.mp hr
  rw [setColApply_cols_of_not_mem T c sub agg hc]
  simp [h r0 hr0]

theorem mem_colsDrop (cs : List String) (c x : String) :
    x ∈ colsDrop cs c ↔ x ∈ cs ∧ x ≠ c := by
  simp [colsDrop]

theorem foldl_dropCol_cols (names : List String) :
    ∀ T : Table, (names.foldl dropCol T).cols = names.foldl colsDrop T.cols := by
  induction names with
  | nil => intro T; rfl
  | cons a names ih => intro T; rw [List.foldl_cons, List.foldl_cons, ih]; rfl

theorem foldl_dropCol_rows_length (names : List String) :
    ∀ T : Table, (names.foldl dropCol T).rows.length = T.rows.length := by
  induction names with
  | nil => intro T; rfl
  | cons a names ih => intro T; rw [List.foldl_cons, ih, dropCol_rows_length]

theorem WF_foldl_dropCol (names : List String) :
    ∀ T : Table, T.WF → (names.foldl dropCol T).WF := by
  induction names with
  | nil => exact fun T h => h
  | cons a names ih => exact fun T h => ih _ (WF_dropCol T a h)

theorem mem_foldl_colsDrop (names : List String) :
    ∀ (cs : List String) (x : String),
      x ∈ names.foldl colsDrop cs ↔ x ∈ cs ∧ x ∉ names := by
  induction names with
  | nil => simp
  | cons a names ih =>
      intro cs x
      rw [List.foldl_cons, ih, mem_colsDrop, List.mem_cons]
      tauto

/-! ### Row-value preservation through the table operations -/

theorem rowVal_append_ne (cols : List String) (r : List ℝ) (c c' : String)
    (v : ℝ) (hr : r.length = cols.length) (hc : c ≠ c') :
    rowVal (cols ++ [c']) (r ++ [v]) c = rowVal cols r c := by
  unfold rowVal
  rw [List.zip_append hr.symm]
  exact lookupVal_append_ne _ c c' v hc

theorem rowVal_append_eq (cols : List String) (r : List ℝ) (c' : String)
    (v : ℝ) (hr : r.length = cols.length) (hc' : c' ∉ cols) :
    rowVal (cols ++ [c']) (r ++ [v]) c' = v := by
  unfold rowVal
  rw [List.zip_append hr.symm]
  exact lookupVal_append_eq _ c' v fun p hp => fun hpc =>
    hc' (hpc ▸ (List.of_mem_zip hp).1)

theorem rowVal_dropCol (T : Table) (hWF : T.WF) (c c' : String) (i : Nat)
    (hi : i < T.rows.length) (hc : c ≠ c') :
    rowVal (dropCol T c').cols ((dropCol T c').row i) c =
      rowVal T.cols (T.row i) c := by
  have hr : (T.row i).length = T.cols.length :=
    hWF _ (by unfold Table.row; rw [List.getD_eq_getElem _ _ hi]; exact List.getElem_mem hi)
  rw [dropCol_cols, dropCol_row T c' i hi, rowVal,
    filter_zip_eq (fun s => !(s == c')) T.cols (T.row i) hr]
  exact lookupVal_filter _ _ c fun p hp => by simp [hp, hc]

theorem row_length_of_WF (T : Table) (hWF : T.WF) (i : Nat)
    (hi : i < T.rows.length) : (T.row i).length = T.cols.length :=
  hWF _ (by unfold Table.row; rw [List.getD_eq_getElem _ _ hi]; exact List.getElem_mem hi)

theorem rowVal_foldl_dropCol (names : List String) :
    ∀ T : Table, T.WF → ∀ i : Nat, i < T.rows.length → ∀ c : String, c ∉ names →
      rowVal (names.foldl dropCol T).cols ((names.foldl dropCol T).row i) c =
        rowVal T.cols (T.row i) c := by
  induction names with
  | nil => intro T _ i _ c _; rfl
  | cons a names ih =>
      intro T hWF i hi c hc
      rw [List.foldl_cons]
      have h1 : c ∉ names := fun h => hc (List.mem_cons_of_mem a h)
      have h2 : c ≠ a := fun h => hc (h ▸ List.mem_cons_self a names)
      rw [ih (dropCol T a) (WF_dropCol T a hWF) i
        (by rw [dropCol_rows_length]; exact hi) c h1]
      exact rowVal_dropCol T hWF c a i hi h2

theorem rowVal_renameCol (T : Table) (o n c : String) (r : List ℝ)
    (h1 : c ≠ o) (h2 : c ≠ n) :
    rowVal (renameCol T o n).cols r c = rowVal T.cols r c := by
  rw [renameCol_cols, rowVal, rowVal, List.zip_map_left]
  refine lookupVal_map_name _ _ c fun a => ?_
  by_cases ha : a = o
  · subst ha
    simp only [beq_self_eq_true, if_pos]
    exact ⟨fun h => absurd h.symm h2, fun h => absurd h.symm h1⟩
  · simp [ha]

theorem rowVal_setColApply_ne (T : Table) (c' : String) (sub : List String)
    (agg : List ℝ → ℝ) (hc' : c' ∉ T.cols) (hWF : T.WF) (i : Nat)
    (hi : i < T.rows.length) (c : String) (hc : c ≠ c') :
    rowVal (setColApply T c' sub agg).cols ((setColApply T c' sub agg).row i) c =
      rowVal T.cols (T.row i) c := by
  rw [setColApply_cols_of_not_mem T c' sub agg hc',
    setColApply_row_of_not_mem T c' sub agg hc' i hi]
  exact rowVal_append_ne T.cols (T.row i) c c' _ (row_length_of_WF T hWF i hi) hc

theorem rowVal_setColApply_eq (T : Table) (c' : String) (sub : List String)
    (agg : List ℝ → ℝ) (hc' : c' ∉ T.cols) (hWF : T.WF) (i : Nat)
    (hi : i < T.rows.length) :
    rowVal (setColApply T c' sub agg).cols ((setColApply T c' sub agg).row i) c' =
      agg (sub.map (rowVal T.cols (T.row i))) := by
  rw [setColApply_cols_of_not_mem T c' sub agg hc',
    setColApply_row_of_not_mem T c' sub agg hc' i hi]
  exact rowVal_append_eq T.cols (T.row i) c' _ (row_length_of_WF T hWF i hi) hc'

theorem not_mem_renameCol (T : Table) (o n x : String) (hx : x ∉ T.cols)
    (hn : x ≠ n) : x ∉ (renameCol T o n).cols := by
  rw [renameCol_cols]
  intro h
  obtain ⟨s, hs, hsx⟩ := List.mem_map.mp h
  by_cases hso : (s == o) = true
  · rw [if_pos hso] at hsx; exact hn hsx.symm
  · rw [if_neg hso] at hsx; exact hx (hsx ▸ hs)

theorem not_mem_append_singleton {x c : String} {l : List String}
    (h1 : x ∉ l) (h2 : x ≠ c) : x ∉ l ++ [c] := by
  rw [List.mem_append]
  rintro (h | h)
  · exact h1 h
  · exact h2 (by simpa using h)

/-- The five derived values of row `i` of the derived table, each computed
directly from the corresponding four source columns of the input table. -/
theorem featureDerive_vals (T : Table) (hWF : T.WF)
    (hfresh : ∀ d ∈ derivedCols, d ∉ T.cols) (i : Nat) (hi : i < T.rows.length) :
    rowVal (featureDerive T).cols ((featureDerive T).row i) "PAY_old_mean" =
        npMean (old_PAY.map (rowVal T.cols (T.row i))) ∧
    rowVal (featureDerive T).cols ((featureDerive T).row i) "BILL_AMT_old_mean" =
        npMean (old_BILL_AMT.map (rowVal T.cols (T.row i))) ∧
    rowVal (featureDerive T).cols ((featureDerive T).row i) "BILL_AMT_old_std" =
        npStd (old_BILL_AMT.map (rowVal T.cols (T.row i))) ∧
    rowVal (featureDerive T).cols ((featureDerive T).row i) "PAY_AMT_old_mean" =
        npMean (old_PAY_AMT.map (rowVal T.cols (T.row i))) ∧
    rowVal (featureDerive T).cols ((featureDerive T).row i) "PAY_AMT_old_std" =
        npStd (old_PAY_AMT.map (rowVal T.cols (T.row i))) := by
  set t1 := renameCol T "PAY_0" "PAY_1" with ht1
  set t2 := setColApply t1 "PAY_old_mean" old_PAY npMean with ht2
  set t3 := setColApply t2 "BILL_AMT_old_mean" old_BILL_AMT npMean with ht3
  set t4 := setColApply t3 "BILL_AMT_old_std" old_BILL_AMT npStd with ht4
  set t5 := setColApply t4 "PAY_AMT_old_mean" old_PAY_AMT npMean with ht5
  set t6 := setColApply t5 "PAY_AMT_old_std" old_PAY_AMT npStd with ht6
  have hfd : featureDerive T = droppedCols.foldl dropCol t6 := rfl
  have hA1 : ("PAY_old_mean" : String) ∉ t1.cols :=
    not_mem_renameCol T _ _ _ (hfresh _ (by simp [derivedCols])) (by decide)
  have hA2 : ("BILL_AMT_old_mean" : String) ∉ t1.cols :=
    not_mem_renameCol T _ _ _ (hfresh _ (by simp [derivedCols])) (by decide)
  have hA3 : ("BILL_AMT_old_std" : String) ∉ t1.cols :=
    not_mem_renameCol T _ _ _ (hfresh _ (by simp [derivedCols])) (by decide)
  have hA4 : ("PAY_AMT_old_mean" : String) ∉ t1.cols :=
    not_mem_renameCol T _ _ _ (hfresh _ (by simp [derivedCols])) (by decide)
  have hA5 : ("PAY_AMT_old_std" : String) ∉ t1.cols :=
    not_mem_renameCol T _ _ _ (hfresh _ (by simp [derivedCols])) (by decide)
  have w1 : t1.WF := WF_renameCol T _ _ hWF
  have i1 : i < t1.rows.length := hi
  have c2 : t2.cols = t1.cols ++ ["PAY_old_mean"] :=
    setColApply_cols_of_not_mem _ _ _ _ hA1
  have w2 : t2.WF := WF_setColApply_of_not_mem t1 _ _ _ hA1 w1
  have i2 : i < t2.rows.length := by
    rw [ht2, setColApply_rows_length]; exact i1
  have hN2 : ("BILL_AMT_old_mean" : String) ∉ t2.cols := by
    rw [c2]; exact not_mem_append_singleton hA2 (by decide)
  have c3 : t3.cols = t2.cols ++ ["BILL_AMT_old_mean"] :=
    setColApply_cols_of_not_mem _ _ _ _ hN2
  have w3 : t3.WF := WF_setColApply_of_not_mem t2 _ _ _ hN2 w2
  have i3 : i < t3.rows.length := by
    rw [ht3, setColApply_rows_length]; exact i2
  have hN3 : ("BILL_AMT_old_std" : String) ∉ t3.cols := by
    rw [c3, c2]
    exact not_mem_append_singleton (not_mem_append_singleton hA3 (by decide)) (by decide)
  have c4 : t4.cols = t3.cols ++ ["BILL_AMT_old_std"] :=
    setColApply_cols_of_not_mem _ _ _ _ hN3
  have w4 : t4.WF := WF_setColApply_of_not_mem t3 _ _ _ hN3 w3
  have i4 : i < t4.rows.length := by
    rw [ht4, setColApply_rows_length]; exact i3
  have hN4 : ("PAY_AMT_old_mean" : String) ∉ t4.cols := by
    rw [c4, c3, c2]
    exact not_mem_append_singleton (not_mem_append_singleton
      (not_mem_append_singleton hA4 (by decide)) (by decide)) (by decide)
  have c5 : t5.cols = t4.cols ++ ["PAY_AMT_old_mean"] :=
    setColApply_cols_of_not_mem _ _ _ _ hN4
  have w5 : t5.WF := WF_setColApply_of_not_mem t4 _ _ _ hN4 w4
  have i5 : i < t5.rows.length := by
    rw [ht5, setColApply_rows_length]; exact i4
  have hN5 : ("PAY_AMT_old_std" : String) ∉ t5.cols := by
    rw [c5, c4, c3, c2]
    exact not_mem_append_singleton (not_mem_append_singleton (not_mem_append_singleton
      (not_mem_append_singleton hA5 (by decide)) (by decide)) (by decide)) (by decide)
  have w6 : t6.WF := WF_setColApply_of_not_mem t5 _ _ _ hN5 w5
  have i6 : i < t6.rows.length := by
    rw [ht6, setColApply_rows_length]; exact i5
  have hv65 : ∀ c : String, c ≠ "PAY_AMT_old_std" →
      rowVal t6.cols (t6.row i) c = rowVal t5.cols (t5.row i) c :=
    fun c hc => rowVal_setColApply_ne t5 _ _ _ hN5 w5 i i5 c hc
  have hv54 : ∀ c : String, c ≠ "PAY_AMT_old_mean" →
      rowVal t5.cols (t5.row i) c = rowVal t4.cols (t4.row i) c :=
    fun c hc => rowVal_setColApply_ne t4 _ _ _ hN4 w4 i i4 c hc
  have hv43 : ∀ c : String, c ≠ "BILL_AMT_old_std" →
      rowVal t4.cols (t4.row i) c = rowVal t3.cols (t3.row i) c :=
    fun c hc => rowVal_setColApply_ne t3 _ _ _ hN3 w3 i i3 c hc
  have hv32 : ∀ c : String, c ≠ "BILL_AMT_old_mean" →
      rowVal t3.cols (t3.row i) c = rowVal t2.cols (t2.row i) c :=
    fun c hc => rowVal_setColApply_ne t2 _ _ _ hN2 w2 i i2 c hc
  have hv21 : ∀ c : String, c ≠ "PAY_old_mean" →
      rowVal t2.cols (t2.row i) c = rowVal t1.cols (t1.row i) c :=
    fun c hc => rowVal_setColApply_ne t1 _ _ _ hA1 w1 i i1 c hc
  have hv10 : ∀ c : String, c ≠ "PAY_0" → c ≠ "PAY_1" →
      rowVal t1.cols (t1.row i) c = rowVal T.cols (T.row i) c := by
    intro c h1 h2
    rw [ht1, renameCol_row]
    exact rowVal_renameCol T _ _ c (T.row i) h1 h2
  have hvd : ∀ c : String, c ∉ droppedCols →
      rowVal (featureDerive T).cols ((featureDerive T).row i) c =
        rowVal t6.cols (t6.row i) c := by
    intro c hc
    rw [hfd]
    exact rowVal_foldl_dropCol droppedCols t6 w6 i i6 c hc
  have hmPAY : old_PAY.map (rowVal t1.cols (t1.row i)) =
      old_PAY.map (rowVal T.cols (T.row i)) := by
    refine List.map_congr_left fun c hc => ?_
    simp only [old_PAY, List.mem_cons, List.not_mem_nil, or_false] at hc
    rcases hc with rfl | rfl | rfl | rfl <;> exact hv10 _ (by decide) (by decide)
  have hmB2 : old_BILL_AMT.map (rowVal t2.cols (t2.row i)) =
      old_BILL_AMT.map (rowVal T.cols (T.row i)) := by
    refine List.map_congr_left fun c hc => ?_
    simp only [old_BILL_AMT, List.mem_cons, List.not_mem_nil, or_false] at hc
    rcases hc with rfl | rfl | rfl | rfl <;>
      (rw [hv21 _ (by decide)]; exact hv10 _ (by decide) (by decide))
  have hmB3 : old_BILL_AMT.map (rowVal t3.cols (t3.row i)) =
      old_BILL_AMT.map (rowVal T.cols (T.row i)) := by
    refine List.map_congr_left fun c hc => ?_
    simp only [old_BILL_AMT, List.mem_cons, List.not_mem_nil, or_false] at hc
    rcases hc with rfl | rfl | rfl | rfl <;>
      (rw [hv32 _ (by decide), hv21 _ (by decide)]; exact hv10 _ (by decide) (by decide))
  have hmP4 : old_PAY_AMT.map (rowVal t4.cols (t4.row i)) =
      old_PAY_AMT.map (rowVal T.cols (T.row i)) := by
    refine List.map_congr_left fun c hc => ?_
    simp only [old_PAY_AMT, List.mem_cons, List.not_mem_nil, or_false] at hc
    rcases hc with rfl | rfl | rfl | rfl <;>
      (rw [hv43 _ (by decide), hv32 _ (by decide), hv21 _ (by decide)];
        exact hv10 _ (by decide) (by decide))
  have hmP5 : old_PAY_AMT.map (rowVal t5.cols (t5.row i)) =
      old_PAY_AMT.map (rowVal T.cols (T.row i)) := by
    refine List.map_congr_left fun c hc => ?_
    simp only [old_PAY_AMT, List.mem_cons, List.not_mem_nil, or_false] at hc
    rcases hc with rfl | rfl | rfl | rfl <;>
      (rw [hv54 _ (by decide), hv43 _ (by decide), hv32 _ (by decide),
        hv21 _ (by decide)]; exact hv10 _ (by decide) (by decide))
  refine ⟨?_, ?_, ?_, ?_, ?_⟩
  · rw [hvd _ (by decide), hv65 _ (by decide), hv54 _ (by decide),
      hv43 _ (by decide), hv32 _ (by decide), ht2,
      rowVal_setColApply_eq t1 _ old_PAY npMean hA1 w1 i i1, hmPAY]
  · rw [hvd _ (by decide), hv65 _ (by decide), hv54 _ (by decide),
      hv43 _ (by decide), ht3,
      rowVal_setColApply_eq t2 _ old_BILL_AMT npMean hN2 w2 i i2, hmB2]
  · rw [hvd _ (by decide), hv65 _ (by decide), hv54 _ (by decide), ht4,
      rowVal_setColApply_eq t3 _ old_BILL_AMT npStd hN3 w3 i i3, hmB3]
  · rw [hvd _ (by decide), hv65 _ (by decide), ht5,
      rowVal_setColApply_eq t4 _ old_PAY_AMT npMean hN4 w4 i i4, hmP4]
  · rw [hvd _ (by decide), ht6,
      rowVal_setColApply_eq t5 _ old_PAY_AMT npStd hN5 w5 i i5, hmP5]

/-! ### The label-list view of the derivation cell -/

theorem setColApply_cols (T : Table) (c : String) (sub : List String)
    (agg : List ℝ → ℝ) : (setColApply T c sub agg).cols = colsSet T.cols c := by
  by_cases h : c ∈ T.cols <;> simp [setColApply, colsSet, h]

theorem mem_colsSet (cs : List String) (c x : String) :
    x ∈ colsSet cs c ↔ x ∈ cs ∨ x = c := by
  unfold colsSet
  by_cases h : c ∈ cs
  · rw [if_pos h]
    exact ⟨Or.inl, fun hx => hx.elim id (fun e => e ▸ h)⟩
  · rw [if_neg h]
    simp

theorem featureDerive_cols (T : Table) :
    (featureDerive T).cols = colsAfterDerive T.cols := by
  have h : featureDerive T = droppedCols.foldl dropCol
      (setColApply (setColApply (setColApply (setColApply (setColApply
        (renameCol T "PAY_0" "PAY_1") "PAY_old_mean" old_PAY npMean)
        "BILL_AMT_old_mean" old_BILL_AMT npMean)
        "BILL_AMT_old_std" old_BILL_AMT npStd)
        "PAY_AMT_old_mean" old_PAY_AMT npMean)
        "PAY_AMT_old_std" old_PAY_AMT npStd) := rfl
  rw [h, foldl_dropCol_cols, setColApply_cols, setColApply_cols,
    setColApply_cols, setColApply_cols, setColApply_cols, renameCol_cols]
  rfl

theorem featureDerive_rows_length (T : Table) :
    (featureDerive T).rows.length = T.rows.length := by
  have h : featureDerive T = droppedCols.foldl dropCol
      (setColApply (setColApply (setColApply (setColApply (setColApply
        (renameCol T "PAY_0" "PAY_1") "PAY_old_mean" old_PAY npMean)
        "BILL_AMT_old_mean" old_BILL_AMT npMean)
        "BILL_AMT_old_std" old_BILL_AMT npStd)
        "PAY_AMT_old_mean" old_PAY_AMT npMean)
        "PAY_AMT_old_std" old_PAY_AMT npStd) := rfl
  rw [h, foldl_dropCol_rows_length, setColApply_rows_length,
    setColApply_rows_length, setColApply_rows_length, setColApply_rows_length,
    setColApply_rows_length, renameCol_rows_length]

theorem mem_colsRename_elim (cs : List String) (x : String)
    (h : x ∈ colsRename cs) : x = "PAY_1" ∨ x ∈ cs := by
  obtain ⟨s, hs, hsx⟩ := List.mem_map.mp h
  by_cases hso : (s == "PAY_0") = true
  · rw [if_pos hso] at hsx
    exact Or.inl hsx.symm
  · rw [if_neg hso] at hsx
    exact Or.inr (hsx ▸ hs)

theorem not_mem_colsAfterDerive (cs : List String) (x : String) (hx : x ∉ cs)
    (h1 : x ≠ "PAY_1") (h2 : x ∉ derivedCols) : x ∉ colsAfterDerive cs := by
  unfold colsAfterDerive
  intro hmem
  obtain ⟨hbase, -⟩ := (mem_foldl_colsDrop droppedCols _ x).mp hmem
  rcases (mem_colsSet _ _ _).mp hbase with hbase | rfl
  · rcases (mem_colsSet _ _ _).mp hbase with hbase | rfl
    · rcases (mem_colsSet _ _ _).mp hbase with hbase | rfl
      · rcases (mem_colsSet _ _ _).mp hbase with hbase | rfl
        · rcases (mem_colsSet _ _ _).mp hbase with hbase | rfl
          · rcases mem_colsRename_elim cs x hbase with rfl | hmem2
            · exact h1 rfl
            · exact hx hmem2
          · exact h2 (by simp [derivedCols])
        · exact h2 (by simp [derivedCols])
      · exact h2 (by simp [derivedCols])
    · exact h2 (by simp [derivedCols])
  · exact h2 (by simp [derivedCols])

/-- A lookup at a label no column carries gives the default `0`. -/
theorem rowVal_of_not_mem (cols : List String) (r : List ℝ) (c : String)
    (h : c ∉ cols) : rowVal cols r c = 0 := by
  unfold rowVal lookupVal
  rw [List.find?_eq_none.mpr]
  · rfl
  · intro p hp
    simp only [beq_eq_false_iff_ne, ne_eq, beq_iff_eq]
    exact fun hpc => h (hpc ▸ (List.of_mem_zip hp).1)

/-- Any column that is not dropped, not derived and not part of the
`PAY_0`/`PAY_1` rename keeps its per-row values through the derivation
cell. -/
theorem featureDerive_preserves (T : Table) (hWF : T.WF)
    (hfresh : ∀ d ∈ derivedCols, d ∉ T.cols) (i : Nat) (hi : i < T.rows.length)
    (c : String) (hd : c ∉ droppedCols) (hder : c ∉ derivedCols)
    (h0 : c ≠ "PAY_0") (h1 : c ≠ "PAY_1") :
    rowVal (featureDerive T).cols ((featureDerive T).row i) c =
      rowVal T.cols (T.row i) c := by
  set t1 := renameCol T "PAY_0" "PAY_1" with ht1
  set t2 := setColApply t1 "PAY_old_mean" old_PAY npMean with ht2
  set t3 := setColApply t2 "BILL_AMT_old_mean" old_BILL_AMT npMean with ht3
  set t4 := setColApply t3 "BILL_AMT_old_std" old_BILL_AMT npStd with ht4
  set t5 := setColApply t4 "PAY_AMT_old_mean" old_PAY_AMT npMean with ht5
  set t6 := setColApply t5 "PAY_AMT_old_std" old_PAY_AMT npStd with ht6
  have hfd : featureDerive T = droppedCols.foldl dropCol t6 := rfl
  have hA1 : ("PAY_old_mean" : String) ∉ t1.cols :=
    not_mem_renameCol T _ _ _ (hfresh _ (by simp [derivedCols])) (by decide)
  have hA2 : ("BILL_AMT_old_mean" : String) ∉ t1.cols :=
    not_mem_renameCol T _ _ _ (hfresh _ (by simp [derivedCols])) (by decide)
  have hA3 : ("BILL_AMT_old_std" : String) ∉ t1.cols :=
    not_mem_renameCol T _ _ _ (hfresh _ (by simp [derivedCols])) (by decide)
  have hA4 : ("PAY_AMT_old_mean" : String) ∉ t1.cols :=
    not_mem_renameCol T _ _ _ (hfresh _ (by simp [derivedCols])) (by decide)
  have hA5 : ("PAY_AMT_old_std" : String) ∉ t1.cols :=
    not_mem_renameCol T _ _ _ (hfresh _ (by simp [derivedCols])) (by decide)
  have w1 : t1.WF := WF_renameCol T _ _ hWF
  have i1 : i < t1.rows.length := hi
  have c2 : t2.cols = t1.cols ++ ["PAY_old_mean"] :=
    setColApply_cols_of_not_mem _ _ _ _ hA1
  have w2 : t2.WF := WF_setColApply_of_not_mem t1 _ _ _ hA1 w1
  have i2 : i < t2.rows.length := by
    rw [ht2, setColApply_rows_length]; exact i1
  have hN2 : ("BILL_AMT_old_mean" : String) ∉ t2.cols := by
    rw [c2]; exact not_mem_append_singleton hA2 (by decide)
  have c3 : t3.cols = t2.cols ++ ["BILL_AMT_old_mean"] :=
    setColApply_cols_of_not_mem _ _ _ _ hN2
  have w3 : t3.WF := WF_setColApply_of_not_mem t2 _ _ _ hN2 w2
  have i3 : i < t3.rows.length := by
    rw [ht3, setColApply_rows_length]; exact i2
  have hN3 : ("BILL_AMT_old_std" : String) ∉ t3.cols := by
    rw [c3, c2]
    exact not_mem_append_singleton (not_mem_append_singleton hA3 (by decide)) (by decide)
  have c4 : t4.cols = t3.cols ++ ["BILL_AMT_old_std"] :=
    setColApply_cols_of_not_mem _ _ _ _ hN3
  have w4 : t4.WF := WF_setColApply_of_not_mem t3 _ _ _ hN3 w3
  have i4 : i < t4.rows.length := by
    rw [ht4, setColApply_rows_length]; exact i3
  have hN4 : ("PAY_AMT_old_mean" : String) ∉ t4.cols := by
    rw [c4, c3, c2]
    exact not_mem_append_singleton (not_mem_append_singleton
      (not_mem_append_singleton hA4 (by decide)) (by decide)) (by decide)
  have c5 : t5.cols = t4.cols ++ ["PAY_AMT_old_mean"] :=
    setColApply_cols_of_not_mem _ _ _ _ hN4
  have w5 : t5.WF := WF_setColApply_of_not_mem t4 _ _ _ hN4 w4
  have i5 : i < t5.rows.length := by
    rw [ht5, setColApply_rows_length]; exact i4
  have hN5 : ("PAY_AMT_old_std" : String) ∉ t5.cols := by
    rw [c5, c4, c3, c2]
    exact not_mem_append_singleton (not_mem_append_singleton (not_mem_append_singleton
      (not_mem_append_singleton hA5 (by decide)) (by decide)) (by decide)) (by decide)
  have w6 : t6.WF := WF_setColApply_of_not_mem t5 _ _ _ hN5 w5
  have i6 : i < t6.rows.length := by
    rw [ht6, setColApply_rows_length]; exact i5
  have hne : ∀ d ∈ derivedCols, c ≠ d := fun d hdm he => hder (he ▸ hdm)
  rw [hfd]
  rw [rowVal_foldl_dropCol droppedCols t6 w6 i i6 c hd]
  rw [rowVal_setColApply_ne t5 _ _ _ hN5 w5 i i5 c (hne _ (by simp [derivedCols]))]
  rw [rowVal_setColApply_ne t4 _ _ _ hN4 w4 i i4 c (hne _ (by simp [derivedCols]))]
  rw [rowVal_setColApply_ne t3 _ _ _ hN3 w3 i i3 c (hne _ (by simp [derivedCols]))]
  rw [rowVal_setColApply_ne t2 _ _ _ hN2 w2 i i2 c (hne _ (by simp [derivedCols]))]
  rw [rowVal_setColApply_ne t1 _ _ _ hA1 w1 i i1 c (hne _ (by simp [derivedCols]))]
  rw [ht1, renameCol_row]
  exact rowVal_renameCol T _ _ c (T.row i) h0 h1

theorem sampleTable_WF : sampleTable.WF := by
  intro r hr
  simp only [sampleTable, List.mem_cons, List.not_mem_nil, or_false] at hr
  subst hr
  rfl

/-- Counterexample for C10 as stated: `PAY_0` is neither one of the twelve
dropped source columns nor one of the five derived columns, yet it is not
left unchanged by the derivation cell — the column disappears (it is
renamed to `PAY_1`), so its looked-up per-row value changes from `7` to the
absent-column default `0`. -/
theorem featureDerive_frame_cex :
    "PAY_0" ∈ sampleTable.cols ∧
    "PAY_0" ∉ droppedCols ∧
    "PAY_0" ∉ derivedCols ∧
    "PAY_0" ∉ (featureDerive sampleTable).cols ∧
    rowVal sampleTable.cols (sampleTable.row 0) "PAY_0" = 7 ∧
    rowVal (featureDerive sampleTable).cols
        ((featureDerive sampleTable).row 0) "PAY_0" ≠
      rowVal sampleTable.cols (sampleTable.row 0) "PAY_0" := by
  have hnot : "PAY_0" ∉ (featureDerive sampleTable).cols := by
    rw [featureDerive_cols]; decide
  have hbefore : rowVal sampleTable.cols (sampleTable.row 0) "PAY_0" = 7 := by
    simp [sampleTable, Table.row, rowVal, lookupVal, List.zip_cons_cons, List.find?]
  have hafter : rowVal (featureDerive sampleTable).cols
      ((featureDerive sampleTable).row 0) "PAY_0" = 0 :=
    rowVal_of_not_mem _ _ _ hnot
  refine ⟨by decide, by decide, by decide, hnot, hbefore, ?_⟩
  rw [hbefore, hafter]
  norm_num

/-- C10 (amended): the feature-derivation cell leaves every column other
than the twelve dropped source columns, the five appended derived columns
and the renamed `PAY_0`/`PAY_1` pair unchanged: for every row, the value
of every such column after derivation equals its value before. -/
theorem featureDerive_frame (T : Table) (hWF : T.WF)
    (hfresh : ∀ d ∈ derivedCols, d ∉ T.cols) (i : Nat) (hi : i < T.rows.length)
    (c : String) (hd : c ∉ droppedCols) (hder : c ∉ derivedCols)
    (h0 : c ≠ "PAY_0") (h1 : c ≠ "PAY_1") :
    rowVal (featureDerive T).cols ((featureDerive T).row i) c =
      rowVal T.cols (T.row i) c :=
  featureDerive_preserves T hWF hfresh i hi c hd hder h0 h1

/-- Witness for the amended C10 at a concrete table: the `LIMIT_BAL`
column keeps its row-0 value through the derivation cell. -/
theorem featureDerive_frame_witness :
    sampleTable.WF ∧ (∀ d ∈ derivedCols, d ∉ sampleTable.cols) ∧
    0 < sampleTable.rows.length ∧ "LIMIT_BAL" ∉ droppedCols ∧
    "LIMIT_BAL" ∉ derivedCols ∧ "LIMIT_BAL" ≠ "PAY_0" ∧
    "LIMIT_BAL" ≠ "PAY_1" ∧
    rowVal (featureDerive sampleTable).cols
        ((featureDerive sampleTable).row 0) "LIMIT_BAL" =
      rowVal sampleTable.cols (sampleTable.row 0) "LIMIT_BAL" :=
  ⟨sampleTable_WF, by decide, by decide, by decide, by decide, by decide,
    by decide,
    featureDerive_frame sampleTable sampleTable_WF (by decide) 0 (by decide)
      "LIMIT_BAL" (by decide) (by decide) (by decide) (by decide)⟩

/-- C1: the feature-derivation cell removes all twelve source columns,
adds the five aggregate columns, and keeps the number of rows, for every
input table containing the twelve source columns. -/
theorem featureDerive_columns (T : Table)
    (h : ∀ c ∈ droppedCols, c ∈ T.cols) :
    (∀ c ∈ droppedCols, c ∉ (featureDerive T).cols) ∧
    (∀ c ∈ derivedCols, c ∈ (featureDerive T).cols) ∧
    (featureDerive T).rows.length = T.rows.length := by
  refine ⟨?_, ?_, featureDerive_rows_length T⟩
  · intro c hc
    rw [featureDerive_cols]
    unfold colsAfterDerive
    rw [mem_foldl_colsDrop]
    rintro ⟨-, hno⟩
    exact hno hc
  · intro c hc
    rw [featureDerive_cols]
    unfold colsAfterDerive
    rw [mem_foldl_colsDrop]
    refine ⟨?_, ?_⟩
    · simp only [derivedCols, List.mem_cons, List.not_mem_nil, or_false] at hc
      rcases hc with rfl | rfl | rfl | rfl | rfl <;> simp [mem_colsSet]
    · simp only [derivedCols, List.mem_cons, List.not_mem_nil, or_false] at hc
      rcases hc with rfl | rfl | rfl | rfl | rfl <;> decide

/-- Witness for C1 at a concrete 17-column table: the twelve source
columns are present beforehand, and afterwards they are gone, the five
aggregates are present, and the row count is unchanged. -/
theorem featureDerive_columns_witness :
    (∀ c ∈ droppedCols, c ∈ sampleTable.cols) ∧
    ((∀ c ∈ droppedCols, c ∉ (featureDerive sampleTable).cols) ∧
     (∀ c ∈ derivedCols, c ∈ (featureDerive sampleTable).cols) ∧
     (featureDerive sampleTable).rows.length = sampleTable.rows.length) :=
  ⟨by decide, featureDerive_columns sampleTable (by decide)⟩

/-- C3: for every row of every well-formed input table (with the five
derived labels fresh), each derived column value equals the direct
aggregate of its four source columns: `PAY_old_mean` is the mean of
`PAY_3..PAY_6`, `BILL_AMT_old_mean`/`BILL_AMT_old_std` are the mean and
standard deviation of `BILL_AMT3..BILL_AMT6`, and
`PAY_AMT_old_mean`/`PAY_AMT_old_std` are the mean and standard deviation
of `PAY_AMT3..PAY_AMT6`. -/
theorem featureDerive_derived_values (T : Table) (hWF : T.WF)
    (hfresh : ∀ d ∈ derivedCols, d ∉ T.cols) (i : Nat) (hi : i < T.rows.length) :
    rowVal (featureDerive T).cols ((featureDerive T).row i) "PAY_old_mean" =
        npMean (old_PAY.map (rowVal T.cols (T.row i))) ∧
    rowVal (featureDerive T).cols ((featureDerive T).row i) "BILL_AMT_old_mean" =
        npMean (old_BILL_AMT.map (rowVal T.cols (T.row i))) ∧
    rowVal (featureDerive T).cols ((featureDerive T).row i) "BILL_AMT_old_std" =
        npStd (old_BILL_AMT.map (rowVal T.cols (T.row i))) ∧
    rowVal (featureDerive T).cols ((featureDerive T).row i) "PAY_AMT_old_mean" =
        npMean (old_PAY_AMT.map (rowVal T.cols (T.row i))) ∧
    rowVal (featureDerive T).cols ((featureDerive T).row i) "PAY_AMT_old_std" =
        npStd (old_PAY_AMT.map (rowVal T.cols (T.row i))) :=
  featureDerive_vals T hWF hfresh i hi

/-- Witness for C3 at a concrete one-row table. -/
theorem featureDerive_derived_values_witness :
    sampleTable.WF ∧ (∀ d ∈ derivedCols, d ∉ sampleTable.cols) ∧
    0 < sampleTable.rows.length ∧
    (rowVal (featureDerive sampleTable).cols
        ((featureDerive sampleTable).row 0) "PAY_old_mean" =
        npMean (old_PAY.map (rowVal sampleTable.cols (sampleTable.row 0))) ∧
      rowVal (featureDerive sampleTable).cols
        ((featureDerive sampleTable).row 0) "BILL_AMT_old_mean" =
        npMean (old_BILL_AMT.map (rowVal sampleTable.cols (sampleTable.row 0))) ∧
      rowVal (featureDerive sampleTable).cols
        ((featureDerive sampleTable).row 0) "BILL_AMT_old_std" =
        npStd (old_BILL_AMT.map (rowVal sampleTable.cols (sampleTable.row 0))) ∧
      rowVal (featureDerive sampleTable).cols
        ((featureDerive sampleTable).row 0) "PAY_AMT_old_mean" =
        npMean (old_PAY_AMT.map (rowVal sampleTable.cols (sampleTable.row 0))) ∧
      rowVal (featureDerive sampleTable).cols
        ((featureDerive sampleTable).row 0) "PAY_AMT_old_std" =
        npStd (old_PAY_AMT.map (rowVal sampleTable.cols (sampleTable.row 0)))) :=
  ⟨sampleTable_WF, by decide, by decide,
    featureDerive_derived_values sampleTable sampleTable_WF (by decide) 0 (by decide)⟩

theorem npStd_four_spec (l : List ℝ) (h : l.length = 4) :
    npStd l = Real.sqrt (sumSqDev l / 4) ∧
    (sumSqDev l ≠ 0 → npStd l ≠ Real.sqrt (sumSqDev l / 3)) := by
  have hvar : npVar l = sumSqDev l / 4 := by
    rw [npVar, h]
    norm_num
    rfl
  constructor
  · rw [npStd, hvar]
  · intro hne
    have hss : 0 ≤ sumSqDev l := by
      apply List.sum_nonneg
      intro x hx
      obtain ⟨a, _, rfl⟩ := List.mem_map.mp hx
      positivity
    have hpos : 0 < sumSqDev l := lt_of_le_of_ne hss (Ne.symm hne)
    rw [npStd, hvar]
    exact ne_of_lt (Real.sqrt_lt_sqrt (by positivity) (by linarith))

/-- C8: for every row, each derived standard-deviation column is the
population standard deviation of its four source values — the square root
of the sum of squared deviations from the mean divided by 4 — and, when
that sum is nonzero, differs from the sample standard deviation (divided
by 3). -/
theorem std_population_not_sample (T : Table) (hWF : T.WF)
    (hfresh : ∀ d ∈ derivedCols, d ∉ T.cols) (i : Nat) (hi : i < T.rows.length) :
    (rowVal (featureDerive T).cols ((featureDerive T).row i) "BILL_AMT_old_std" =
        Real.sqrt (sumSqDev (old_BILL_AMT.map (rowVal T.cols (T.row i))) / 4)) ∧
    (sumSqDev (old_BILL_AMT.map (rowVal T.cols (T.row i))) ≠ 0 →
      rowVal (featureDerive T).cols ((featureDerive T).row i) "BILL_AMT_old_std" ≠
        Real.sqrt (sumSqDev (old_BILL_AMT.map (rowVal T.cols (T.row i))) / 3)) ∧
    (rowVal (featureDerive T).cols ((featureDerive T).row i) "PAY_AMT_old_std" =
        Real.sqrt (sumSqDev (old_PAY_AMT.map (rowVal T.cols (T.row i))) / 4)) ∧
    (sumSqDev (old_PAY_AMT.map (rowVal T.cols (T.row i))) ≠ 0 →
      rowVal (featureDerive T).cols ((featureDerive T).row i) "PAY_AMT_old_std" ≠
        Real.sqrt (sumSqDev (old_PAY_AMT.map (rowVal T.cols (T.row i))) / 3)) := by
  obtain ⟨-, -, hB, -, hP⟩ := featureDerive_vals T hWF hfresh i hi
  obtain ⟨hB1, hB2⟩ :=
    npStd_four_spec (old_BILL_AMT.map (rowVal T.cols (T.row i))) (by simp [old_BILL_AMT])
  obtain ⟨hP1, hP2⟩ :=
    npStd_four_spec (old_PAY_AMT.map (rowVal T.cols (T.row i))) (by simp [old_PAY_AMT])
  refine ⟨hB.trans hB1, fun hne => ?_, hP.trans hP1, fun hne => ?_⟩
  · rw [hB]
    exact hB2 hne
  · rw [hP]
    exact hP2 hne

/-- Witness for C8 at a concrete one-row table. -/
theorem std_population_not_sample_witness :
    sampleTable.WF ∧ (∀ d ∈ derivedCols, d ∉ sampleTable.cols) ∧
    0 < sampleTable.rows.length ∧
    ((rowVal (featureDerive sampleTable).cols
        ((featureDerive sampleTable).row 0) "BILL_AMT_old_std" =
        Real.sqrt (sumSqDev (old_BILL_AMT.map
          (rowVal sampleTable.cols (sampleTable.row 0))) / 4)) ∧
      (sumSqDev (old_BILL_AMT.map
          (rowVal sampleTable.cols (sampleTable.row 0))) ≠ 0 →
        rowVal (featureDerive sampleTable).cols
          ((featureDerive sampleTable).row 0) "BILL_AMT_old_std" ≠
          Real.sqrt (sumSqDev (old_BILL_AMT.map
            (rowVal sampleTable.cols (sampleTable.row 0))) / 3)) ∧
      (rowVal (featureDerive sampleTable).cols
        ((featureDerive sampleTable).row 0) "PAY_AMT_old_std" =
        Real.sqrt (sumSqDev (old_PAY_AMT.map
          (rowVal sampleTable.cols (sampleTable.row 0))) / 4)) ∧
      (sumSqDev (old_PAY_AMT.map
          (rowVal sampleTable.cols (sampleTable.row 0))) ≠ 0 →
        rowVal (featureDerive sampleTable).cols
          ((featureDerive sampleTable).row 0) "PAY_AMT_old_std" ≠
          Real.sqrt (sumSqDev (old_PAY_AMT.map
            (rowVal sampleTable.cols (sampleTable.row 0))) / 3))) :=
  ⟨sampleTable_WF, by decide, by decide,
    std_population_not_sample sampleTable sampleTable_WF (by decide) 0 (by decide)⟩

/-! ### The shuffler: a seeded permutation applied to rows and labels -/

theorem drawAux_perm :
    ∀ (k s : Nat) (pool : List Nat), pool.length ≤ k →
      List.Perm (drawAux k s pool) pool := by
  intro k
  induction k with
  | zero =>
      intro s pool h
      have hnil : pool = [] := List.length_eq_zero.mp (Nat.le_zero.mp h)
      simp [drawAux, hnil]
  | succ k ih =>
      intro s pool h
      by_cases hp : pool = []
      · simp [drawAux, hp]
      · rw [drawAux, dif_neg hp]
        have hvmem : pool.get ⟨s % pool.length,
            Nat.mod_lt _ (List.length_pos.mpr hp)⟩ ∈ pool := List.get_mem ..
        have hlen : (pool.erase (pool.get ⟨s % pool.length,
            Nat.mod_lt _ (List.length_pos.mpr hp)⟩)).length ≤ k := by
          rw [List.length_erase_of_mem hvmem]
          omega
        exact ((ih (lcg s) _ hlen).cons _).trans (List.perm_cons_erase hvmem).symm

theorem permIndices_perm (seed n : Nat) :
    List.Perm (permIndices seed n) (List.range n) :=
  drawAux_perm n (lcg seed) (List.range n) (by simp)

theorem range_map_getD_pair {α β : Type} (dx : α) (dy : β) :
    ∀ (x : List α) (y : List β), y.length = x.length →
      (List.range x.length).map (fun i => (x.getD i dx, y.getD i dy)) = x.zip y := by
  intro x
  induction x with
  | nil => intro y h; simp
  | cons a x ih =>
      intro y h
      cases y with
      | nil => simp at h
      | cons b y =>
          have hlen : y.length = x.length := by simpa using h
          rw [List.length_cons, List.range_succ_eq_map, List.map_cons, List.map_map]
          simp only [List.getD_cons_zero, List.getD_cons_succ, Function.comp_def]
          rw [ih y hlen, List.zip_cons_cons]

/-- C5: the shuffling step is a deterministic function of the feature
rows, the label array and the seed: two runs on equal inputs with equal
seeds produce identical shuffled outputs. -/
theorem shuffle_deterministic (X₁ X₂ : List (List ℝ)) (y₁ y₂ : List ℝ)
    (s₁ s₂ : Nat) (hX : X₁ = X₂) (hy : y₁ = y₂) (hs : s₁ = s₂) :
    shuffleXy X₁ y₁ s₁ = shuffleXy X₂ y₂ s₂ := by
  subst hX
  subst hy
  subst hs
  rfl

/-- Witness for C5 at a concrete three-row input with seed 1. -/
theorem shuffle_deterministic_witness :
    ([[(1 : ℝ)], [2], [3]] = [[(1 : ℝ)], [2], [3]]) ∧
    ([(4 : ℝ), 5, 6] = [(4 : ℝ), 5, 6]) ∧ ((1 : Nat) = 1) ∧
    shuffleXy [[(1 : ℝ)], [2], [3]] [(4 : ℝ), 5, 6] 1 =
      shuffleXy [[(1 : ℝ)], [2], [3]] [(4 : ℝ), 5, 6] 1 :=
  ⟨rfl, rfl, rfl,
    shuffle_deterministic [[(1 : ℝ)], [2], [3]] [[(1 : ℝ)], [2], [3]]
      [(4 : ℝ), 5, 6] [(4 : ℝ), 5, 6] 1 1 rfl rfl rfl⟩

/-- C6: the shuffler applies one and the same permutation of `0, …, n-1`
to the feature rows and to the label array, so row correspondence is kept
and the multiset of (feature row, label) pairs is preserved. -/
theorem shuffle_same_permutation (X : List (List ℝ)) (y : List ℝ) (seed : Nat)
    (h : y.length = X.length) :
    ∃ p : List Nat, List.Perm p (List.range X.length) ∧
      (shuffleXy X y seed).1 = p.map (fun i => X.getD i []) ∧
      (shuffleXy X y seed).2 = p.map (fun i => y.getD i 0) ∧
      List.Perm ((shuffleXy X y seed).1.zip (shuffleXy X y seed).2) (X.zip y) := by
  refine ⟨permIndices seed X.length, permIndices_perm seed X.length, rfl, rfl, ?_⟩
  have h1 : List.Perm
      ((permIndices seed X.length).map (fun i => (X.getD i [], y.getD i 0)))
      ((List.range X.length).map (fun i => (X.getD i [], y.getD i 0))) :=
    List.Perm.map _ (permIndices_perm seed X.length)
  rw [range_map_getD_pair [] 0 X y h] at h1
  show List.Perm
    ((reindex [] X (permIndices seed X.length)).zip
      (reindex 0 y (permIndices seed X.length))) (X.zip y)
  rw [reindex, reindex, List.zip_map']
  exact h1

/-- Witness for C6 at a concrete three-row input with seed 1. -/
theorem shuffle_same_permutation_witness :
    ([(4 : ℝ), 5, 6].length = [[(1 : ℝ)], [2], [3]].length) ∧
    (∃ p : List Nat,
      List.Perm p (List.range [[(1 : ℝ)], [2], [3]].length) ∧
      (shuffleXy [[(1 : ℝ)], [2], [3]] [(4 : ℝ), 5, 6] 1).1 =
        p.map (fun i => [[(1 : ℝ)], [2], [3]].getD i []) ∧
      (shuffleXy [[(1 : ℝ)], [2], [3]] [(4 : ℝ), 5, 6] 1).2 =
        p.map (fun i => [(4 : ℝ), 5, 6].getD i 0) ∧
      List.Perm
        ((shuffleXy [[(1 : ℝ)], [2], [3]] [(4 : ℝ), 5, 6] 1).1.zip
          (shuffleXy [[(1 : ℝ)], [2], [3]] [(4 : ℝ), 5, 6] 1).2)
        ([[(1 : ℝ)], [2], [3]].zip [(4 : ℝ), 5, 6])) :=
  ⟨rfl, shuffle_same_permutation [[(1 : ℝ)], [2], [3]] [(4 : ℝ), 5, 6] 1 rfl⟩

/-! ### The label column through the pipeline -/

/-- C7: the label column is separated out at load time and never reappears
among the feature columns: not after the load, not after the
shuffle/`ID`-deletion stage, and not after feature derivation (the split
stage reads its feature-name list from that last table). -/
theorem label_excluded_all_stages (raw : Table) (seed : Nat) :
    creditLabel ∉ (loadX raw).cols ∧
    creditLabel ∉ (shuffledTable raw seed).cols ∧
    creditLabel ∉ (derivedTable raw seed).cols := by
  have h1 : creditLabel ∉ (loadX raw).cols := by
    unfold loadX
    rw [dropCol_cols]
    intro h
    have h2 := (List.mem_filter.mp h).2
    simp at h2
  have h2 : creditLabel ∉ (shuffledTable raw seed).cols := by
    unfold shuffledTable
    rw [dropCol_cols]
    intro h
    exact h1 ((List.mem_filter.mp h).1)
  refine ⟨h1, h2, ?_⟩
  unfold derivedTable
  rw [featureDerive_cols]
  exact not_mem_colsAfterDerive _ _ h2 (by decide) (by decide)

theorem derivedTable_cols (raw : Table) (seed : Nat) :
    (derivedTable raw seed).cols =
      colsAfterDerive (colsDrop (colsDrop raw.cols creditLabel) "ID") := by
  unfold derivedTable
  rw [featureDerive_cols]
  rfl

/-- C9: on any raw table with the credit-card column layout, the feature
list after `ID` deletion, the `PAY_0` → `PAY_1` rename and feature
derivation is exactly the sixteen expected names in order, with neither
`PAY_0` nor `ID` among them. -/
theorem pipeline_feature_names (raw : Table) (seed : Nat)
    (h : raw.cols = creditColumns) :
    (derivedTable raw seed).cols = expectedFeatures ∧
    "PAY_0" ∉ (derivedTable raw seed).cols ∧
    "ID" ∉ (derivedTable raw seed).cols := by
  have hc := derivedTable_cols raw seed
  rw [h] at hc
  refine ⟨?_, ?_, ?_⟩ <;> rw [hc] <;> decide

/-- Witness for C9 at a concrete one-row raw table with the credit-card
layout. -/
theorem pipeline_feature_names_witness :
    (sampleRaw.cols = creditColumns) ∧
    ((derivedTable sampleRaw 1).cols = expectedFeatures ∧
     "PAY_0" ∉ (derivedTable sampleRaw 1).cols ∧
     "ID" ∉ (derivedTable sampleRaw 1).cols) :=
  ⟨rfl, pipeline_feature_names sampleRaw 1 rfl⟩

/-! ### The grid search -/

theorem foldl_selectStep_mem (score : Nat × ℚ → ℚ) :
    ∀ (l : List (Nat × ℚ)) (b : Nat × ℚ),
      ∃ p, l.foldl (selectStep score) (some b) = some p ∧ (p = b ∨ p ∈ l) := by
  intro l
  induction l with
  | nil => exact fun b => ⟨b, rfl, Or.inl rfl⟩
  | cons a l ih =>
      intro b
      rw [List.foldl_cons]
      have hstep : selectStep score (some b) a =
          if score b < score a then some a else some b := rfl
      by_cases hlt : score b < score a
      · rw [hstep, if_pos hlt]
        obtain ⟨p, hp, hm⟩ := ih a
        refine ⟨p, hp, Or.inr ?_⟩
        rw [List.mem_cons]
        exact hm
      · rw [hstep, if_neg hlt]
        obtain ⟨p, hp, hm⟩ := ih b
        exact ⟨p, hp, hm.imp_right (List.mem_cons_of_mem a)⟩

theorem selectBest_mem (score : Nat × ℚ → ℚ) (l : List (Nat × ℚ))
    (hl : l ≠ []) : ∃ p, selectBest l score = some p ∧ p ∈ l := by
  cases l with
  | nil => exact absurd rfl hl
  | cons a l =>
      unfold selectBest
      rw [List.foldl_cons]
      have hstep : selectStep score none a = some a := rfl
      rw [hstep]
      obtain ⟨p, hp, hm⟩ := foldl_selectStep_mem score l a
      refine ⟨p, hp, ?_⟩
      rw [List.mem_cons]
      exact hm

/-- C4: whatever cross-validated scores the candidates receive, the grid
search selects a candidate from the specified Cartesian product grid:
`max_depth` in `{3,4,5,6,7}` and `max_features` in
`{0.1, 0.325, 0.55, 0.775, 1.0}`. -/
theorem gridSearch_params_in_grid (score : Nat × ℚ → ℚ) :
    ∃ p : Nat × ℚ, selectBest gridCandidates score = some p ∧
      p.1 ∈ gridDepths ∧ p.2 ∈ gridFeatures := by
  obtain ⟨p, hp, hm⟩ := selectBest_mem score gridCandidates
    (by simp [gridCandidates, gridDepths, gridFeatures])
  have hall : ∀ q ∈ gridCandidates, q.1 ∈ gridDepths ∧ q.2 ∈ gridFeatures := by
    intro q hq
    unfold gridCandidates at hq
    rw [List.mem_flatMap] at hq
    obtain ⟨d, hd, hq⟩ := hq
    obtain ⟨f, hf, rfl⟩ := List.mem_map.mp hq
    exact ⟨hd, hf⟩
  exact ⟨p, hp, (hall p hm).1, (hall p hm).2⟩

/-- C2: on a table of `n` rows with a label array of the same length, the
splitter puts exactly the first `⌊n/2⌋` rows and labels in the training
partition and the rest in the test partition: train is the length-`⌊n/2⌋`
prefix, the in-order concatenation of the partitions is the full data, and
each test element sits `⌊n/2⌋` places after its original position. -/
theorem splitData_spec (data : List (List ℝ)) (y : List ℝ)
    (h : y.length = data.length) :
    (splitData data y).1 = data.take (data.length / 2) ∧
    (splitData data y).2.2.1 = y.take (data.length / 2) ∧
    (splitData data y).1 ++ (splitData data y).2.1 = data ∧
    (splitData data y).2.2.1 ++ (splitData data y).2.2.2 = y ∧
    (splitData data y).1.length = data.length / 2 ∧
    (splitData data y).2.2.1.length = data.length / 2 ∧
    (∀ i : Nat, (splitData data y).2.1[i]? = data[data.length / 2 + i]?) ∧
    (∀ i : Nat, (splitData data y).2.2.2[i]? = y[data.length / 2 + i]?) := by
  refine ⟨rfl, rfl, List.take_append_drop _ _, List.take_append_drop _ _, ?_, ?_, ?_, ?_⟩
  · simpa [splitData] using Nat.min_eq_left (Nat.div_le_self _ _)
  · simp only [splitData, List.length_take]
    exact Nat.min_eq_left (h ▸ Nat.div_le_self _ _)
  · intro i
    exact List.getElem?_drop data (data.length / 2) i
  · intro i
    exact List.getElem?_drop y (data.length / 2) i

/-- Witness for C2 at a concrete five-row table: the hypothesis holds and
the split puts the first two rows in train, the last three in test. -/
theorem splitData_spec_witness :
    ([(5 : ℝ), 6, 7, 8, 9].length = [[(0 : ℝ)], [1], [2], [3], [4]].length) ∧
    ((splitData [[(0 : ℝ)], [1], [2], [3], [4]] [(5 : ℝ), 6, 7, 8, 9]).1 =
        [[(0 : ℝ)], [1], [2], [3], [4]].take
          ([[(0 : ℝ)], [1], [2], [3], [4]].length / 2) ∧
      (splitData [[(0 : ℝ)], [1], [2], [3], [4]] [(5 : ℝ), 6, 7, 8, 9]).2.2.1 =
        [(5 : ℝ), 6, 7, 8, 9].take ([[(0 : ℝ)], [1], [2], [3], [4]].length / 2) ∧
      (splitData [[(0 : ℝ)], [1], [2], [3], [4]] [(5 : ℝ), 6, 7, 8, 9]).1 ++
          (splitData [[(0 : ℝ)], [1], [2], [3], [4]] [(5 : ℝ), 6, 7, 8, 9]).2.1 =
        [[(0 : ℝ)], [1], [2], [3], [4]] ∧
      (splitData [[(0 : ℝ)], [1], [2], [3], [4]] [(5 : ℝ), 6, 7, 8, 9]).2.2.1 ++
          (splitData [[(0 : ℝ)], [1], [2], [3], [4]] [(5 : ℝ), 6, 7, 8, 9]).2.2.2 =
        [(5 : ℝ), 6, 7, 8, 9] ∧
      (splitData [[(0 : ℝ)], [1], [2], [3], [4]] [(5 : ℝ), 6, 7, 8, 9]).1.length =
        [[(0 : ℝ)], [1], [2], [3], [4]].length / 2 ∧
      (splitData [[(0 : ℝ)], [1], [2], [3], [4]] [(5 : ℝ), 6, 7, 8, 9]).2.2.1.length =
        [[(0 : ℝ)], [1], [2], [3], [4]].length / 2 ∧
      (∀ i : Nat,
        (splitData [[(0 : ℝ)], [1], [2], [3], [4]] [(5 : ℝ), 6, 7, 8, 9]).2.1[i]? =
          [[(0 : ℝ)], [1], [2], [3], [4]][[[(0 : ℝ)], [1], [2], [3], [4]].length / 2 + i]?) ∧
      (∀ i : Nat,
        (splitData [[(0 : ℝ)], [1], [2], [3], [4]] [(5 : ℝ), 6, 7, 8, 9]).2.2.2[i]? =
          [(5 : ℝ), 6, 7, 8, 9][[[(0 : ℝ)], [1], [2], [3], [4]].length / 2 + i]?)) :=
  ⟨rfl, splitData_spec [[(0 : ℝ)], [1], [2], [3], [4]] [(5 : ℝ), 6, 7, 8, 9] rfl⟩

end CreditDefault
